import Mathlib

/-!
Verification development for the "AI Company Analyzer" browser application
(`src/App.tsx`, `src/types.ts`).  The definitions below are a shallow
embedding of the TypeScript source: JavaScript strings are `List Char`,
JSON values are the `Json` inductive, `JSON.parse` is the fuel-based
recursive-descent parser `jsonParse`, the `extractJson` helper and its
fenced-block regex are modelled character-for-character, the JS `Map`
based source deduplication is `jsMapDedup`, and the chat tool-call loop of
`CompanyChatSession.sendMessage` is `sendMessage` over a finite script of
scripted model replies.
-/

/-! ## Characters and whitespace -/

/-- Left brace character (written via its code point). -/
def lbrace : Char := Char.ofNat 123

/-- Right brace character. -/
def rbrace : Char := Char.ofNat 125

/-- Left bracket character. -/
def lbrack : Char := Char.ofNat 91

/-- Right bracket character. -/
def rbrack : Char := Char.ofNat 93

/-- Double-quote character. -/
def quoteChar : Char := Char.ofNat 34

/-- Backslash character. -/
def backslashChar : Char := Char.ofNat 92

/-- Forward slash character. -/
def slashChar : Char := Char.ofNat 47

/-- Colon character. -/
def colonChar : Char := Char.ofNat 58

/-- Comma character. -/
def commaChar : Char := Char.ofNat 44

/-- Minus character. -/
def minusChar : Char := Char.ofNat 45

/-- Dot character. -/
def dotChar : Char := Char.ofNat 46

/-- Plus character. -/
def plusChar : Char := Char.ofNat 43

/-- Unicode replacement character, used for lone surrogate escapes. -/
def replacementChar : Char := Char.ofNat 0xFFFD

/-- JSON whitespace per ECMA-404 / `JSON.parse`: space, tab, LF, CR only. -/
def jsonWs (c : Char) : Bool :=
  c = ' ' || c = Char.ofNat 9 || c = Char.ofNat 10 || c = Char.ofNat 13

/-- ECMAScript whitespace (the class `\s` of the regex and the character
set removed by `String.prototype.trim`): WhiteSpace plus LineTerminator. -/
def isJsWs (c : Char) : Bool :=
  c = ' ' || c = Char.ofNat 9 || c = Char.ofNat 10 || c = Char.ofNat 11 ||
  c = Char.ofNat 12 || c = Char.ofNat 13 || c = Char.ofNat 0xA0 ||
  c = Char.ofNat 0x1680 || (0x2000 ≤ c.toNat && c.toNat ≤ 0x200A) ||
  c = Char.ofNat 0x2028 || c = Char.ofNat 0x2029 || c = Char.ofNat 0x202F ||
  c = Char.ofNat 0x205F || c = Char.ofNat 0x3000 || c = Char.ofNat 0xFEFF

/-- Drop JSON whitespace from the front of the input. -/
def skipWs (s : List Char) : List Char := s.dropWhile jsonWs

/-- `String.prototype.trim` of JavaScript on a character list. -/
def jsTrim (s : List Char) : List Char :=
  ((s.dropWhile isJsWs).reverse.dropWhile isJsWs).reverse

/-- Trim ECMAScript whitespace from the right end only. -/
def jsTrimRight (s : List Char) : List Char :=
  (s.reverse.dropWhile isJsWs).reverse

/-! ## JSON values

A runtime JavaScript value produced by `JSON.parse`.  Numbers keep their
source lexeme (no claim inspects a numeric value, but zero-ness matters
for JS falsiness).  Object fields are in property order; duplicate keys
cannot occur because objects are built with `assocSet` below. -/

/-- JSON value as produced by `JSON.parse`. -/
inductive Json where
  | null : Json
  | bool (b : Bool) : Json
  | num (lexeme : List Char) : Json
  | str (s : List Char) : Json
  | arr (elems : List Json) : Json
  | obj (fields : List (List Char × Json)) : Json

/-- JavaScript property definition on an ordered association list: if the
key is already present its value is replaced in place (property order of
the first occurrence is kept), otherwise the pair is appended.  This is
both how `JSON.parse` treats duplicate keys and how an object literal
`\x7b ...spread, key: v \x7d` and `Map.prototype.set` behave. -/
def assocSet {β : Type} (fs : List (List Char × β)) (k : List Char) (v : β) :
    List (List Char × β) :=
  if fs.any (fun p => p.1 = k) then
    fs.map (fun p => if p.1 = k then (k, v) else p)
  else fs ++ [(k, v)]

/-! ## A faithful model of `JSON.parse` -/

/-- Value of one hexadecimal digit. -/
def hexVal (c : Char) : Option Nat :=
  if c.isDigit then some (c.toNat - 48)
  else if 'a' ≤ c ∧ c ≤ 'f' then some (c.toNat - 87)
  else if 'A' ≤ c ∧ c ≤ 'F' then some (c.toNat - 70)
  else none

/-- Four hexadecimal digits, as in a `\uXXXX` escape. -/
def parseHex4 : List Char → Option (Nat × List Char)
  | a :: b :: c :: d :: rest => do
    let x ← hexVal a
    let y ← hexVal b
    let z ← hexVal c
    let w ← hexVal d
    some ((((x * 16 + y) * 16 + z) * 16 + w), rest)
  | _ => none

/-- Body of a JSON string after the opening quote.  Decodes the escape
sequences of ECMA-404; a surrogate pair of `\u` escapes is combined into
one scalar, a lone surrogate (which a JS string would keep raw) is mapped
to the replacement character since Lean `Char` holds scalar values only.
Raw control characters below 0x20 are a syntax error. -/
def parseStringBody : Nat → List Char → Option (List Char × List Char)
  | 0, _ => none
  | _, [] => none
  | f + 1, c :: rest =>
    if c = quoteChar then some ([], rest)
    else if c = backslashChar then
      match rest with
      | [] => none
      | e :: rest2 =>
        if e = quoteChar ∨ e = backslashChar ∨ e = slashChar then
          (parseStringBody f rest2).map (fun p => (e :: p.1, p.2))
        else if e = 'b' then
          (parseStringBody f rest2).map (fun p => (Char.ofNat 8 :: p.1, p.2))
        else if e = 'f' then
          (parseStringBody f rest2).map (fun p => (Char.ofNat 12 :: p.1, p.2))
        else if e = 'n' then
          (parseStringBody f rest2).map (fun p => (Char.ofNat 10 :: p.1, p.2))
        else if e = 'r' then
          (parseStringBody f rest2).map (fun p => (Char.ofNat 13 :: p.1, p.2))
        else if e = 't' then
          (parseStringBody f rest2).map (fun p => (Char.ofNat 9 :: p.1, p.2))
        else if e = 'u' then
          match parseHex4 rest2 with
          | none => none
          | some (n, rest3) =>
            if 0xD800 ≤ n ∧ n ≤ 0xDBFF then
              match rest3 with
              | b2 :: u2 :: rest4 =>
                if b2 = backslashChar ∧ u2 = 'u' then
                  match parseHex4 rest4 with
                  | some (m, rest5) =>
                    if 0xDC00 ≤ m ∧ m ≤ 0xDFFF then
                      (parseStringBody f rest5).map
                        (fun p =>
                          (Char.ofNat (0x10000 + (n - 0xD800) * 0x400 + (m - 0xDC00)) :: p.1,
                            p.2))
                    else (parseStringBody f rest3).map
                      (fun p => (replacementChar :: p.1, p.2))
                  | none =>
                    (parseStringBody f rest3).map (fun p => (replacementChar :: p.1, p.2))
                else (parseStringBody f rest3).map (fun p => (replacementChar :: p.1, p.2))
              | _ => (parseStringBody f rest3).map (fun p => (replacementChar :: p.1, p.2))
            else if 0xDC00 ≤ n ∧ n ≤ 0xDFFF then
              (parseStringBody f rest3).map (fun p => (replacementChar :: p.1, p.2))
            else (parseStringBody f rest3).map (fun p => (Char.ofNat n :: p.1, p.2))
        else none
    else if c.toNat < 32 then none
    else (parseStringBody f rest).map (fun p => (c :: p.1, p.2))

/-- One or more decimal digits. -/
def digits1 (s : List Char) : Option (List Char × List Char) :=
  let ds := s.takeWhile Char.isDigit
  if ds.isEmpty then none else some (ds, s.drop ds.length)

/-- Integer part of a JSON number: `0`, or a nonzero digit followed by
digits (leading zeros are a syntax error). -/
def parseIntPart : List Char → Option (List Char × List Char)
  | [] => none
  | c :: rest =>
    if c = '0' then some ([c], rest)
    else if c.isDigit then some (c :: rest.takeWhile Char.isDigit, rest.dropWhile Char.isDigit)
    else none

/-- Optional fraction part: `.` followed by at least one digit. -/
def parseFrac : List Char → Option (List Char × List Char)
  | [] => some ([], [])
  | c :: rest =>
    if c = dotChar then (digits1 rest).map (fun p => (c :: p.1, p.2))
    else some ([], c :: rest)

/-- Optional exponent part: `e`/`E`, optional sign, at least one digit. -/
def parseExp : List Char → Option (List Char × List Char)
  | [] => some ([], [])
  | c :: rest =>
    if c = 'e' ∨ c = 'E' then
      match rest with
      | [] => none
      | d :: rest2 =>
        if d = plusChar ∨ d = minusChar then
          (digits1 rest2).map (fun p => (c :: d :: p.1, p.2))
        else (digits1 rest).map (fun p => (c :: p.1, p.2))
    else some ([], c :: rest)

/-- A JSON number literal; returns its lexeme and the remaining input. -/
def parseNumber (s : List Char) : Option (List Char × List Char) := do
  let (sign, s1) :=
    match s with
    | c :: rest => if c = minusChar then ([c], rest) else ([], s)
    | [] => ([], [])
  let (ip, s2) ← parseIntPart s1
  let (fp, s3) ← parseFrac s2
  let (ep, s4) ← parseExp s3
  some (sign ++ ip ++ fp ++ ep, s4)

mutual

/-- A JSON value (fuel-based recursive descent; the fuel only bounds
nesting and is always supplied large enough by `jsonParse`). -/
def parseValue : Nat → List Char → Option (Json × List Char)
  | 0, _ => none
  | f + 1, s =>
    match s with
    | [] => none
    | c :: rest =>
      if c = quoteChar then
        (parseStringBody (rest.length + 1) rest).map (fun p => (Json.str p.1, p.2))
      else if c = lbrace then
        match skipWs rest with
        | [] => none
        | c2 :: rest2 =>
          if c2 = rbrace then some (Json.obj [], rest2)
          else parseMembers f (c2 :: rest2) []
      else if c = lbrack then
        match skipWs rest with
        | [] => none
        | c2 :: rest2 =>
          if c2 = rbrack then some (Json.arr [], rest2)
          else parseElems f (c2 :: rest2) []
      else if c = 't' then
        if ['r', 'u', 'e'].isPrefixOf rest then some (Json.bool true, rest.drop 3) else none
      else if c = 'f' then
        if ['a', 'l', 's', 'e'].isPrefixOf rest then some (Json.bool false, rest.drop 4)
        else none
      else if c = 'n' then
        if ['u', 'l', 'l'].isPrefixOf rest then some (Json.null, rest.drop 3) else none
      else if c = minusChar ∨ c.isDigit then
        (parseNumber (c :: rest)).map (fun p => (Json.num p.1, p.2))
      else none

/-- Members of a JSON object after the opening brace (nonempty case);
duplicate keys behave as in JavaScript (`assocSet`). -/
def parseMembers : Nat → List Char → List (List Char × Json) →
    Option (Json × List Char)
  | 0, _, _ => none
  | f + 1, s, acc =>
    match s with
    | [] => none
    | c :: rest =>
      if c = quoteChar then
        match parseStringBody (rest.length + 1) rest with
        | none => none
        | some (key, s1) =>
          match skipWs s1 with
          | [] => none
          | c2 :: s2 =>
            if c2 = colonChar then
              match parseValue f (skipWs s2) with
              | none => none
              | some (v, s3) =>
                let acc2 := assocSet acc key v
                match skipWs s3 with
                | [] => none
                | c3 :: s4 =>
                  if c3 = commaChar then parseMembers f (skipWs s4) acc2
                  else if c3 = rbrace then some (Json.obj acc2, s4)
                  else none
            else none
      else none

/-- Elements of a JSON array after the opening bracket (nonempty case). -/
def parseElems : Nat → List Char → List Json → Option (Json × List Char)
  | 0, _, _ => none
  | f + 1, s, acc =>
    match parseValue f s with
    | none => none
    | some (v, s1) =>
      match skipWs s1 with
      | [] => none
      | c :: s2 =>
        if c = commaChar then parseElems f (skipWs s2) (acc ++ [v])
        else if c = rbrack then some (Json.arr (acc ++ [v]), s2)
        else none

end

/-- `JSON.parse`: leading and trailing JSON whitespace is allowed, any
other unconsumed input is a syntax error; a syntax error is `none`. -/
def jsonParse (s : List Char) : Option Json :=
  match parseValue (2 * s.length + 2) (skipWs s) with
  | none => none
  | some (j, rest) => if (skipWs rest).isEmpty then some j else none

/-! ## The fenced-block regex and `extractJson` (geminiService lines 237-254)

The regex is `/(three backticks)json\s*([\s\S]*?)\s*(three backticks)/`.
Worked out against leftmost-match and backtracking-priority semantics, a
match exists iff the text contains the tag followed (disjointly) by a
closing fence, the match starts at the first occurrence of the tag, and
the capture group is the text between the tag and the first subsequent
fence with ECMAScript whitespace stripped from both ends. -/

/-- The characters of the opening tag of a fenced JSON block. -/
def fenceTag : List Char := "```json".toList

/-- The characters of a closing fence. -/
def fenceStr : List Char := "```".toList

/-- Suffix of `s` just after the first occurrence of `pat`, if any. -/
def afterFirst (pat : List Char) : List Char → Option (List Char)
  | [] => if pat.isEmpty then some [] else none
  | c :: cs =>
    if pat.isPrefixOf (c :: cs) then some ((c :: cs).drop pat.length)
    else afterFirst pat cs

/-- Prefix of `s` strictly before the first occurrence of `pat`, if any. -/
def beforeFirst (pat : List Char) : List Char → Option (List Char)
  | [] => if pat.isEmpty then some [] else none
  | c :: cs =>
    if pat.isPrefixOf (c :: cs) then some []
    else (beforeFirst pat cs).map (fun t => c :: t)

/-- The capture group of the first regex match: content of the first
fenced `json` block, whitespace-trimmed.  `none` when the regex does not
match. -/
def findFencedJson (text : List Char) : Option (List Char) :=
  match afterFirst fenceTag text with
  | none => none
  | some rest =>
    let body := rest.dropWhile isJsWs
    match beforeFirst fenceStr body with
    | none => none
    | some cap => some (jsTrimRight cap)

/-- Convert an optional parse into the try-block exception discipline:
`JSON.parse` throwing is `Except.error`. -/
def ofOptionE (o : Option Json) : Except Unit Json :=
  match o with
  | some j => Except.ok j
  | none => Except.error ()

/-- The fallback branch of `extractJson`: if the trimmed text starts with
a left brace, `JSON.parse` the whole (untrimmed) text, otherwise throw
`No JSON found`. -/
def fallbackTry (text : List Char) : Except Unit Json :=
  if (jsTrim text).head? = some lbrace then ofOptionE (jsonParse text)
  else Except.error ()

/-- Body of `extractJson`'s `try` block.  Note the source tests
`match && match[1]`: an empty capture group is falsy in JavaScript, so an
empty fenced block falls through to the fallback branch. -/
def extractJsonTry (text : List Char) : Except Unit Json :=
  match findFencedJson text with
  | some cap => if cap.isEmpty then fallbackTry text else ofOptionE (jsonParse cap)
  | none => fallbackTry text

/-- `extractJson` (geminiService lines 237-254): any exception from the
try block is caught and `null` (here `none`) is returned. -/
def extractJson (text : List Char) : Option Json :=
  match extractJsonTry text with
  | Except.ok j => some j
  | Except.error _ => none

/-! ## Domain model (`src/types.ts`)

TypeScript interfaces erase at runtime; union-typed fields such as
`category` and `role` are runtime strings, so they are modelled as
`String` (claim C7 is about exactly this gap).  An `Option` field models
an absent (`?`) property. -/

/-- One historical milestone (`TimelineEvent`). -/
structure TimelineEvent where
  year : Int
  dateStr : Option String
  title : String
  description : String
  category : String
deriving DecidableEq

/-- One node of the organizational tree (`OrgNode`). -/
inductive OrgNode where
  | mk (name : String) (role : String) (children : Option (List OrgNode))
      (description : Option String) : OrgNode

/-- A citation (`GroundingSource`). -/
structure GroundingSource where
  title : String
  uri : String
deriving DecidableEq

/-- The aggregate (`CompanyData`). -/
structure CompanyData where
  companyName : String
  summary : String
  timeline : List TimelineEvent
  structure' : OrgNode
  sources : List GroundingSource

/-- The `category` enumeration of `types.ts` / the tool schema. -/
def validCategory (c : String) : Bool :=
  c = "founding" || c = "product" || c = "acquisition" || c = "scandal" || c = "general"

/-- A `Partial CompanyData` as received by the mutation callback: `none`
models an absent property key. -/
structure UpdateArgs where
  companyName : Option String
  summary : Option String
  timeline : Option (List TimelineEvent)
  structure' : Option OrgNode
  sources : Option (List GroundingSource)

/-- An `UpdateArgs` carrying only a `timeline` property. -/
def timelineOnly (tl : List TimelineEvent) : UpdateArgs :=
  ⟨none, none, some tl, none, none⟩

/-- The object spread `\x7b ...prev, ...updates \x7d` of `handleDataUpdate`
(App.tsx line 40): each property present in `updates` replaces the whole
field, absent properties keep the previous value. -/
def applyUpdate (prev : CompanyData) (u : UpdateArgs) : CompanyData :=
  ⟨u.companyName.getD prev.companyName,
    u.summary.getD prev.summary,
    u.timeline.getD prev.timeline,
    u.structure'.getD prev.structure',
    u.sources.getD prev.sources⟩

/-- `handleDataUpdate` (App.tsx lines 37-42): the state updater maps
`null` previous state to `null`, otherwise shallow-merges. -/
def handleDataUpdate (prev : Option CompanyData) (u : UpdateArgs) : Option CompanyData :=
  match prev with
  | none => none
  | some p => some (applyUpdate p u)

/-! ## Query service (`fetchCompanyData`, geminiService lines 256-328) -/

/-- JavaScript falsiness of a parsed JSON value (for the
`if (!parsedData)` test): `null`, `false`, `""` and numeric zero are
falsy; objects and arrays are always truthy. -/
def jsNumIsZero (lexeme : List Char) : Bool :=
  ((lexeme.takeWhile (fun c => c ≠ 'e' ∧ c ≠ 'E')).filter Char.isDigit).all (fun c => c = '0')

/-- JavaScript falsiness of a JSON value. -/
def jsFalsy : Json → Bool
  | Json.null => true
  | Json.bool b => !b
  | Json.str s => s.isEmpty
  | Json.num lexeme => jsNumIsZero lexeme
  | Json.arr _ => false
  | Json.obj _ => false

/-- Own enumerable properties contributed by `...parsedData` in an object
literal: an object spreads its fields, an array or string spreads
index-keyed entries, a primitive spreads nothing. -/
def spreadFields : Json → List (List Char × Json)
  | Json.obj fs => fs
  | Json.arr xs => xs.enum.map (fun p => ((Nat.repr p.1).toList, p.2))
  | Json.str s => s.enum.map (fun p => ((Nat.repr p.1).toList, Json.str [p.2]))
  | _ => []

/-- The JS `Map` built by `new Map(sources.map(s => [s.uri, s]))`:
inserting an existing key keeps its position but replaces its value
(the LAST source with a given uri is retained, at the position of the
FIRST appearance of that uri). -/
def jsMapPairs (ss : List GroundingSource) : List (String × GroundingSource) :=
  ss.foldl (fun acc s =>
    if acc.any (fun p => p.1 = s.uri) then
      acc.map (fun p => if p.1 = s.uri then (s.uri, s) else p)
    else acc ++ [(s.uri, s)]) []

/-- `Array.from(map.values())` of the deduplicating map (line 317). -/
def jsMapDedup (ss : List GroundingSource) : List GroundingSource :=
  (jsMapPairs ss).map Prod.snd

/-- Encoding of the sources array attached to the returned record. -/
def encodeSources (ss : List GroundingSource) : Json :=
  Json.arr (ss.map (fun s =>
    Json.obj [("title".toList, Json.str s.title.toList),
      ("uri".toList, Json.str s.uri.toList)]))

/-- The `sources` property key. -/
def sourcesKey : List Char := "sources".toList

/-- The `timeline` property key. -/
def timelineKey : List Char := "timeline".toList

/-- Error message thrown when the response is unparseable (line 303). -/
def parseErrorMsg : String := "Could not parse structured data from the AI response."

/-- Property lookup on a JSON value (first matching key). -/
def jsonGetField (j : Json) (k : List Char) : Option Json :=
  match j with
  | Json.obj fs => (fs.find? (fun p => p.1 = k)).map Prod.snd
  | _ => none

/-- `fetchCompanyData` (geminiService lines 256-328) as a function of the
upstream response: `text` is `response.text || ""` and `chunks` models
`groundingChunks` (each entry `some s` when `chunk.web` is present).
Parsing failure (or a falsy parse) throws, which the outer catch logs
and rethrows, so the caller sees `Except.error`.  On success the parsed
record is spread into a fresh object with `sources` set to the
deduplicated citations. -/
def fetchCompanyData (text : List Char) (chunks : List (Option GroundingSource)) :
    Except String Json :=
  match extractJson text with
  | none => Except.error parseErrorMsg
  | some parsed =>
    if jsFalsy parsed then Except.error parseErrorMsg
    else
      Except.ok (Json.obj
        (assocSet (spreadFields parsed) sourcesKey
          (encodeSources (jsMapDedup (chunks.filterMap id)))))

/-! ## Conversational session (`CompanyChatSession.sendMessage`,
geminiService lines 397-449)

The generative dialogue is modelled as a finite script: each
`chat.sendMessage` call consumes the next `ChatStep`, which is either a
scripted reply or a failure (a rejected promise); an exhausted script
also fails.  Side effects already performed before a failure persist. -/

/-- One requested tool invocation of a reply (`response.functionCalls`
entry). -/
structure ToolCall where
  name : String
  id : String
  args : UpdateArgs

/-- One reply of the dialogue.  `text` is `response.text`, with `""`
standing for an absent text (both are falsy for the `||` fallback);
`functionCalls` is `none` when the property is absent. -/
structure ChatResponse where
  text : String
  functionCalls : Option (List ToolCall)

/-- One scripted outcome of a `chat.sendMessage` round-trip. -/
inductive ChatStep where
  | reply (r : ChatResponse) : ChatStep
  | fail : ChatStep

/-- Observable events of a turn, in order: a mutation-callback invocation
(`onUpdate`), or an acknowledgment batch sent back to the dialogue. -/
inductive ChatEvent where
  | update (c : ToolCall) : ChatEvent
  | ackSend (ids : List String) : ChatEvent

/-- The name of the single declared tool. -/
def updateToolName : String := "update_company_data"

/-- Fallback text when a reply has no text (line 444). -/
def updatedText : String := "I updated the information."

/-- The string returned by the catch branch (line 447). -/
def chatErrorText : String := "I encountered an error processing your request."

/-- `response.text || "I updated the information."`. -/
def respText (r : ChatResponse) : String :=
  if r.text = "" then updatedText else r.text

/-- Loop-control of the `while (functionCalls && functionCalls.length >
0)` loop of `sendMessage`: `none` when this iteration stops the loop
(absent or empty call list, or a non-empty list with no recognized
`update_company_data` call, hence an empty `functionResponses` and a
`break`); `some recognized` when the recognized calls run the callback
and their acknowledgments are sent back as one more round-trip. -/
def loopBody (r : ChatResponse) : Option (List ToolCall) :=
  match r.functionCalls with
  | none => none
  | some calls =>
    if calls.isEmpty then none
    else
      let recognized := calls.filter (fun c => c.name = updateToolName)
      if recognized.isEmpty then none else some recognized

/-- Callback arguments accumulated by one loop iteration. -/
def iterUps (ups : List UpdateArgs) (recognized : List ToolCall) : List UpdateArgs :=
  ups ++ recognized.map ToolCall.args

/-- Events of one loop iteration: the callback invocations in call order,
then the single acknowledgment send. -/
def iterEvs (evs : List ChatEvent) (recognized : List ToolCall) : List ChatEvent :=
  evs ++ (recognized.map ChatEvent.update ++
    [ChatEvent.ackSend (recognized.map ToolCall.id)])

/-- The loop itself, by recursion on the remaining script: when the
iteration sends acknowledgments the next scripted step is consumed (a
`fail` or exhausted script rejects, landing in the catch). -/
def toolLoop : ChatResponse → List ChatStep → List UpdateArgs → Nat → List ChatEvent →
    Except Unit String × List UpdateArgs × Nat × List ChatEvent
  | r, [], ups, trips, evs =>
    match loopBody r with
    | none => (Except.ok (respText r), ups, trips, evs)
    | some recognized => (Except.error (), iterUps ups recognized, trips + 1, iterEvs evs recognized)
  | r, ChatStep.fail :: _, ups, trips, evs =>
    match loopBody r with
    | none => (Except.ok (respText r), ups, trips, evs)
    | some recognized => (Except.error (), iterUps ups recognized, trips + 1, iterEvs evs recognized)
  | r, ChatStep.reply r2 :: rest, ups, trips, evs =>
    match loopBody r with
    | none => (Except.ok (respText r), ups, trips, evs)
    | some recognized => toolLoop r2 rest (iterUps ups recognized) (trips + 1) (iterEvs evs recognized)

/-- The try block of `sendMessage`: the user message is sent (one
round-trip), then the tool loop runs. -/
def sendMessageTry (script : List ChatStep) :
    Except Unit String × List UpdateArgs × Nat × List ChatEvent :=
  match script with
  | [] => (Except.error (), [], 1, [])
  | ChatStep.fail :: _ => (Except.error (), [], 1, [])
  | ChatStep.reply r :: rest => toolLoop r rest [] 1 []

/-- Caller-observable outcome of one `sendMessage` turn. -/
structure TurnOutcome where
  text : String
  updates : List UpdateArgs
  roundTrips : Nat
  events : List ChatEvent

/-- `CompanyChatSession.sendMessage`: the catch branch converts any
failure into the fixed fallback string, returned as an ordinary result
(the function never rejects). -/
def sendMessage (script : List ChatStep) : TurnOutcome :=
  match sendMessageTry script with
  | (Except.ok t, u, n, e) => ⟨t, u, n, e⟩
  | (Except.error _, u, n, e) => ⟨chatErrorText, u, n, e⟩

/-- Temporal check on an event trace: scanning left to right with the set
of already-updated invocation ids, every acknowledgment batch only acks
ids whose `update_company_data` callback invocation happened strictly
earlier. -/
def goodFrom (seen : List String) : List ChatEvent → Bool
  | [] => true
  | ChatEvent.update c :: rest =>
    goodFrom (if c.name = updateToolName then c.id :: seen else seen) rest
  | ChatEvent.ackSend ids :: rest => ids.all (fun i => seen.contains i) && goodFrom seen rest

/-! ## Client construction (geminiService line 234) -/

/-- The constructed generative-service client; it records the credential
it was handed (possibly absent).  The external constructor performs no
repository-visible validation; credential problems surface at request
time. -/
structure GenClient where
  apiKey : Option String
deriving DecidableEq

/-- Module initialization `const ai = new GoogleGenAI({ apiKey:
process.env.API_KEY })`: the environment value is read and stored,
unconditionally. -/
def initAiClient (env : Option String) : GenClient := ⟨env⟩

/-! ## Claim-side definitions (modelled from the spec's words, for
comparison with the source-derived definitions above) -/

/-- The parser algorithm exactly as claim C3 words it: step (2) parses
the TRIMMED text. -/
def extractJsonClaimed (text : List Char) : Option Json :=
  match findFencedJson text with
  | some cap => jsonParse cap
  | none =>
    if (jsTrim text).head? = some lbrace then jsonParse (jsTrim text) else none

/-- The parser algorithm as amended: identical to the claim except that
step (2) parses the whole untrimmed text (as `JSON.parse(text)` does) and
an empty fenced block falls through to step (2). -/
def extractJsonAmended (text : List Char) : Option Json :=
  match findFencedJson text with
  | some cap =>
    if cap.isEmpty then
      if (jsTrim text).head? = some lbrace then jsonParse text else none
    else jsonParse cap
  | none => if (jsTrim text).head? = some lbrace then jsonParse text else none

/-- Deduplication exactly as claim C1 words it: the retained source for a
uri is the FIRST one bearing it, insertion order of first appearance. -/
def firstWinsDedup : List GroundingSource → List GroundingSource
  | [] => []
  | s :: ss => s :: firstWinsDedup (ss.filter (fun t => t.uri ≠ s.uri))
termination_by ss => ss.length
decreasing_by
  simp only [List.length_cons]
  exact Nat.lt_succ_of_le (List.length_filter_le _ _)

/-- First-occurrence deduplication of a key list (order of first
appearance), used to characterize what the code actually retains. -/
def firstDedup : List String → List String
  | [] => []
  | u :: us => u :: firstDedup (us.filter (fun v => v ≠ u))
termination_by us => us.length
decreasing_by
  simp only [List.length_cons]
  exact Nat.lt_succ_of_le (List.length_filter_le _ _)

/-- The last source in `ss` bearing uri `u` (junk default when absent). -/
def lastWith (u : String) (ss : List GroundingSource) : GroundingSource :=
  ss.foldl (fun acc s => if s.uri = u then s else acc) ⟨"", ""⟩

/-- Startup behaviour exactly as claim C9 words it: an absent credential
is a fail-fast configuration error. -/
def initFailFastClaimed (env : Option String) : Except String GenClient :=
  match env with
  | none => Except.error "API credential missing from the process environment"
  | some k => Except.ok ⟨some k⟩

/-- Ids whose mutation callback has run after scanning a trace, given the
ids already seen (accumulator of `goodFrom`). -/
def seenAfter (seen : List String) : List ChatEvent → List String
  | [] => seen
  | ChatEvent.update c :: rest =>
    seenAfter (if c.name = updateToolName then c.id :: seen else seen) rest
  | ChatEvent.ackSend _ :: rest => seenAfter seen rest

/-! ## Concrete fixtures for witnesses and counterexamples -/

/-- A JSON string literal: the characters of `s` between double quotes. -/
def jstrL (s : String) : List Char := quoteChar :: s.toList ++ [quoteChar]

/-- The input `FORM FEED, left brace, right brace`: `trim` removes the
form feed (ECMAScript whitespace) but `JSON.parse` rejects it (not JSON
whitespace). -/
def ffInput : List Char := [Char.ofNat 12, lbrace, rbrace]

/-- The two-character input holding one empty JSON object. -/
def braceOnly : List Char := [lbrace, rbrace]

/-- Grounding chunks with a duplicated uri `a` carrying two different
titles, plus one chunk without a `web` entry. -/
def demoChunks : List (Option GroundingSource) :=
  [some ⟨"t1", "a"⟩, none, some ⟨"u", "b"⟩, some ⟨"t2", "a"⟩]

/-- An update payload with no properties at all. -/
def emptyUpdate : UpdateArgs := ⟨none, none, none, none, none⟩

/-- A timeline event whose category is outside the enumeration. -/
def bogusEvent : TimelineEvent := ⟨2020, none, "Event", "Something happened", "bogus"⟩

/-- A minimal organizational tree. -/
def demoOrg : OrgNode := OrgNode.mk "Acme Corp" "root" none none

/-- A loaded `CompanyData` value. -/
def demoCompany : CompanyData := ⟨"Acme Corp", "A company.", [], demoOrg, []⟩

/-- `demoCompany` after a timeline-only update installing `bogusEvent`. -/
def c7updated : CompanyData := ⟨"Acme Corp", "A company.", [bogusEvent], demoOrg, []⟩

/-- Response text `(then-a-brace)"timeline":[(a-brace)"category":"bogus"(close)](close)`:
a bare JSON object whose only timeline event has an unrecognized
category. -/
def c7text : List Char :=
  [lbrace] ++ jstrL "timeline" ++ [colonChar, lbrack, lbrace] ++ jstrL "category" ++
    [colonChar] ++ jstrL "bogus" ++ [rbrace, rbrack, rbrace]

/-- The fields `JSON.parse` produces for `c7text`. -/
def c7fields : List (List Char × Json) :=
  [(timelineKey, Json.arr [Json.obj [("category".toList, Json.str "bogus".toList)]])]

/-- What `fetchCompanyData c7text []` returns. -/
def c7result : Json :=
  Json.obj (c7fields ++ [(sourcesKey, encodeSources [])])

/-- A scripted dialogue whose single tool call carries the bogus-category
timeline, acknowledged and followed by a plain-text reply. -/
def c7script : List ChatStep :=
  [ChatStep.reply ⟨"", some [⟨updateToolName, "id1", timelineOnly [bogusEvent]⟩]⟩,
    ChatStep.reply ⟨"done", none⟩]

/-- A scripted reply requesting one unknown tool. -/
def unknownToolCall : ToolCall := ⟨"other_tool", "z1", emptyUpdate⟩

/-- A fenced response with prose on both sides of the block. -/
def fencedDemo : List Char :=
  "Here you go: ```json ".toList ++ [lbrace] ++ jstrL "a" ++ [colonChar] ++
    "1".toList ++ [rbrace] ++ " ``` hope this helps".toList

/-! ## Helper lemmas -/

/-- The catch of `extractJson` undoes the exception wrapping of
`ofOptionE`. -/
theorem match_ofOptionE (o : Option Json) :
    (match ofOptionE o with
      | Except.ok j => some j
      | Except.error _ => none) = o := by
  cases o <;> rfl

/-- Key lookup at a matching head. -/
theorem find?_key_cons_pos {β : Type} (q : List Char × β) (fs : List (List Char × β))
    (k : List Char) (h : q.1 = k) :
    (q :: fs).find? (fun p => p.1 = k) = some q :=
  List.find?_cons_of_pos _ (by simp [h])

/-- Key lookup skips a non-matching head. -/
theorem find?_key_cons_neg {β : Type} (q : List Char × β) (fs : List (List Char × β))
    (k : List Char) (h : ¬q.1 = k) :
    (q :: fs).find? (fun p => p.1 = k) = fs.find? (fun p => p.1 = k) :=
  List.find?_cons_of_neg _ (by simp [h])

/-- Appending a fresh key to an association list makes it findable. -/
theorem find?_append_not_any {β : Type} (fs : List (List Char × β)) (k : List Char) (v : β)
    (h : fs.any (fun p => p.1 = k) = false) :
    (fs ++ [(k, v)]).find? (fun p => p.1 = k) = some (k, v) := by
  induction fs with
  | nil =>
    rw [List.nil_append]
    exact find?_key_cons_pos (k, v) [] k rfl
  | cons q fs ih =>
    simp only [List.any_cons, Bool.or_eq_false_iff] at h
    have hq : ¬q.1 = k := by simpa using h.1
    rw [List.cons_append, find?_key_cons_neg q _ k hq]
    exact ih h.2

/-- Replacing the value at a present key makes the new value findable. -/
theorem find?_replace_any {β : Type} (fs : List (List Char × β)) (k : List Char) (v : β)
    (h : fs.any (fun p => p.1 = k) = true) :
    (fs.map (fun p => if p.1 = k then (k, v) else p)).find? (fun p => p.1 = k) =
      some (k, v) := by
  induction fs with
  | nil => simp at h
  | cons q fs ih =>
    rw [List.map_cons]
    by_cases hq : q.1 = k
    · rw [if_pos hq]
      exact find?_key_cons_pos (k, v) _ k rfl
    · rw [if_neg hq, find?_key_cons_neg q _ k hq]
      simp only [List.any_cons, Bool.or_eq_true] at h
      rcases h with h | h
      · exact absurd (of_decide_eq_true h) hq
      · exact ih h

/-- After `assocSet fs k v`, looking up `k` yields `v`. -/
theorem find?_assocSet_self {β : Type} (fs : List (List Char × β)) (k : List Char) (v : β) :
    (assocSet fs k v).find? (fun p => p.1 = k) = some (k, v) := by
  by_cases h : fs.any (fun p => p.1 = k)
  · rw [assocSet, if_pos h]
    exact find?_replace_any fs k v h
  · rw [assocSet, if_neg h]
    exact find?_append_not_any fs k v (Bool.not_eq_true _ ▸ h)

/-- `assocSet` at key `k` does not disturb lookups at another key. -/
theorem find?_assocSet_ne {β : Type} (fs : List (List Char × β)) (k : List Char) (v : β)
    (k' : List Char) (h : k' ≠ k) :
    (assocSet fs k v).find? (fun p => p.1 = k') = fs.find? (fun p => p.1 = k') := by
  by_cases hany : fs.any (fun p => p.1 = k)
  · rw [assocSet, if_pos hany]
    clear hany
    induction fs with
    | nil => rfl
    | cons q fs ih =>
      rw [List.map_cons]
      by_cases hq : q.1 = k
      · rw [if_pos hq, find?_key_cons_neg (k, v) _ k' (Ne.symm h),
          find?_key_cons_neg q _ k' (by rw [hq]; exact Ne.symm h)]
        exact ih
      · rw [if_neg hq]
        by_cases hq' : q.1 = k'
        · rw [find?_key_cons_pos q _ k' hq', find?_key_cons_pos q _ k' hq']
        · rw [find?_key_cons_neg q _ k' hq', find?_key_cons_neg q _ k' hq']
          exact ih
  · rw [assocSet, if_neg hany]
    clear hany
    induction fs with
    | nil =>
      rw [List.nil_append, find?_key_cons_neg (k, v) _ k' (Ne.symm h)]
    | cons q fs ih =>
      by_cases hq' : q.1 = k'
      · rw [List.cons_append, find?_key_cons_pos q _ k' hq', find?_key_cons_pos q _ k' hq']
      · rw [List.cons_append, find?_key_cons_neg q _ k' hq', find?_key_cons_neg q _ k' hq']
        exact ih

/-- Membership is invariant under first-occurrence deduplication. -/
theorem mem_firstDedup (a : String) (l : List String) : a ∈ firstDedup l ↔ a ∈ l := by
  induction l using firstDedup.induct with
  | case1 => simp [firstDedup]
  | case2 u us ih =>
    rw [firstDedup]
    by_cases ha : a = u
    · simp [ha]
    · simp only [List.mem_cons, ih, List.mem_filter, ha, false_or]
      constructor
      · exact fun hh => hh.1
      · exact fun hh => ⟨hh, by simp [ha]⟩

/-- Effect of appending one key on first-occurrence deduplication. -/
theorem firstDedup_append (l : List String) (a : String) :
    firstDedup (l ++ [a]) = if a ∈ l then firstDedup l else firstDedup l ++ [a] := by
  induction l using firstDedup.induct with
  | case1 => simp [firstDedup]
  | case2 u us ih =>
    rw [List.cons_append, firstDedup, List.filter_append]
    by_cases ha : a = u
    · have : List.filter (fun v => decide (v ≠ u)) [a] = [] := by simp [ha]
      rw [this, List.append_nil, if_pos (by simp [ha]), firstDedup]
    · have : List.filter (fun v => decide (v ≠ u)) [a] = [a] := by simp [ha]
      rw [this, ih]
      by_cases hmem : a ∈ us
      · rw [if_pos (by simp [List.mem_filter, hmem, ha]), if_pos (by simp [hmem]), firstDedup]
      · rw [if_neg (by simp [List.mem_filter, hmem]), if_neg (by simp [hmem, ha]), firstDedup]
        rfl

/-- One `Map.set` step of the deduplicating fold. -/
theorem jsMapPairs_append (ss : List GroundingSource) (s : GroundingSource) :
    jsMapPairs (ss ++ [s]) =
      if (jsMapPairs ss).any (fun p => p.1 = s.uri) then
        (jsMapPairs ss).map (fun p => if p.1 = s.uri then (s.uri, s) else p)
      else jsMapPairs ss ++ [(s.uri, s)] := by
  rw [jsMapPairs, jsMapPairs, List.foldl_append]
  rfl

/-- Effect of appending one source on the last-bearer selection. -/
theorem lastWith_append (u : String) (ss : List GroundingSource) (s : GroundingSource) :
    lastWith u (ss ++ [s]) = if s.uri = u then s else lastWith u ss := by
  rw [lastWith, lastWith, List.foldl_append]
  rfl

/-- Characterization of the JS `Map` contents: keys are the uris in
order of first appearance, each valued by its LAST bearer. -/
theorem jsMapPairs_eq (ss : List GroundingSource) :
    jsMapPairs ss =
      (firstDedup (ss.map GroundingSource.uri)).map (fun u => (u, lastWith u ss)) := by
  induction ss using List.reverseRecOn with
  | nil => simp [jsMapPairs, firstDedup]
  | append_singleton ss s ih =>
    rw [jsMapPairs_append, ih, List.map_append, List.map_cons, List.map_nil,
      firstDedup_append]
    by_cases hmem : s.uri ∈ ss.map GroundingSource.uri
    · have hany : ((firstDedup (ss.map GroundingSource.uri)).map
          (fun u => (u, lastWith u ss))).any (fun p => p.1 = s.uri) = true := by
        rw [List.any_eq_true]
        exact ⟨(s.uri, lastWith s.uri ss),
          List.mem_map_of_mem _ ((mem_firstDedup _ _).mpr hmem), by simp⟩
      rw [if_pos hany, if_pos hmem, List.map_map]
      apply List.map_congr_left
      intro u hu
      show (if u = s.uri then (s.uri, s) else (u, lastWith u ss)) =
        (u, lastWith u (ss ++ [s]))
      rw [lastWith_append]
      by_cases hus : u = s.uri
      · subst hus
        simp
      · rw [if_neg hus, if_neg (Ne.symm hus)]
    · have hany : ((firstDedup (ss.map GroundingSource.uri)).map
          (fun u => (u, lastWith u ss))).any (fun p => p.1 = s.uri) = false := by
        rw [Bool.eq_false_iff]
        intro hcon
        rw [List.any_eq_true] at hcon
        rcases hcon with ⟨p, hp, hpval⟩
        rcases List.mem_map.mp hp with ⟨u, hu, rfl⟩
        have huq : u = s.uri := of_decide_eq_true hpval
        subst huq
        exact hmem ((mem_firstDedup _ _).mp hu)
      rw [if_neg (by rw [hany]; exact Bool.false_ne_true), if_neg hmem, List.map_append,
        List.map_cons, List.map_nil]
      congr 1
      · apply List.map_congr_left
        intro u hu
        have hus : ¬s.uri = u := by
          intro hh
          exact hmem (by rw [hh]; exact (mem_firstDedup _ _).mp hu)
        rw [lastWith_append, if_neg hus]
      · rw [lastWith_append, if_pos rfl]

/-- Characterization of the deduplicated source list (line 317): order
of first appearance of each uri, value from its last appearance. -/
theorem jsMapDedup_eq (ss : List GroundingSource) :
    jsMapDedup ss =
      (firstDedup (ss.map GroundingSource.uri)).map (fun u => lastWith u ss) := by
  rw [jsMapDedup, jsMapPairs_eq, List.map_map]
  rfl

/-- `goodFrom` distributes over trace concatenation. -/
theorem goodFrom_append (seen : List String) (evs evs' : List ChatEvent) :
    goodFrom seen (evs ++ evs') =
      (goodFrom seen evs && goodFrom (seenAfter seen evs) evs') := by
  induction evs generalizing seen with
  | nil => simp [goodFrom, seenAfter]
  | cons e rest ih =>
    cases e with
    | update c =>
      rw [List.cons_append, goodFrom, goodFrom, seenAfter, ih]
    | ackSend ids =>
      rw [List.cons_append, goodFrom, goodFrom, seenAfter, ih, Bool.and_assoc]

/-- One iteration block (updates then one acknowledgment of those same
invocations) is a good trace from any starting point. -/
theorem block_goodFrom (cs : List ToolCall) (seen ids : List String)
    (hnames : ∀ c ∈ cs, c.name = updateToolName)
    (hids : ∀ i ∈ ids, i ∈ cs.map ToolCall.id ∨ seen.contains i = true) :
    goodFrom seen (cs.map ChatEvent.update ++ [ChatEvent.ackSend ids]) = true := by
  induction cs generalizing seen with
  | nil =>
    rw [List.map_nil, List.nil_append, goodFrom, goodFrom]
    rw [Bool.and_eq_true]
    refine ⟨List.all_eq_true.mpr ?_, rfl⟩
    intro i hi
    rcases hids i hi with hcon | hseen
    · simp at hcon
    · exact hseen
  | cons c cs ih =>
    rw [List.map_cons, List.cons_append, goodFrom, if_pos (hnames c (by simp))]
    apply ih
    · intro c' hc'
      exact hnames c' (List.mem_cons_of_mem _ hc')
    · intro i hi
      rcases hids i hi with hmap | hseen
      · rw [List.map_cons, List.mem_cons] at hmap
        rcases hmap with rfl | hmap
        · right
          simp [List.contains_cons]
        · exact Or.inl hmap
      · right
        rw [List.contains_cons, hseen, Bool.or_true]

/-- Every call selected by `loopBody` is named `update_company_data`
(it came out of the name filter). -/
theorem loopBody_names (r : ChatResponse) (recognized : List ToolCall)
    (h : loopBody r = some recognized) :
    ∀ c ∈ recognized, c.name = updateToolName := by
  intro c hc
  cases hfc : r.functionCalls with
  | none => simp [loopBody, hfc] at h
  | some calls =>
    simp only [loopBody, hfc] at h
    split_ifs at h with hemp hrec
    have hrecog : recognized = calls.filter (fun c => c.name = updateToolName) :=
      (Option.some.inj h).symm
    rw [hrecog] at hc
    have hdec := List.of_mem_filter hc
    exact of_decide_eq_true hdec

/-- Appending one iteration block preserves trace goodness. -/
theorem iterEvs_goodFrom (seen : List String) (evs : List ChatEvent)
    (recognized : List ToolCall) (hnames : ∀ c ∈ recognized, c.name = updateToolName)
    (h : goodFrom seen evs = true) :
    goodFrom seen (iterEvs evs recognized) = true := by
  rw [iterEvs, goodFrom_append, Bool.and_eq_true]
  exact ⟨h, block_goodFrom recognized _ _ hnames (fun i hi => Or.inl hi)⟩

/-- The tool loop only extends a good trace to a good trace: every
acknowledgment it ever sends covers only earlier callback invocations. -/
theorem toolLoop_goodFrom (script : List ChatStep) (r : ChatResponse)
    (ups : List UpdateArgs) (trips : Nat) (evs : List ChatEvent) (seen : List String)
    (h : goodFrom seen evs = true) :
    goodFrom seen (toolLoop r script ups trips evs).2.2.2 = true := by
  induction script generalizing r ups trips evs with
  | nil =>
    rw [toolLoop]
    cases hlb : loopBody r with
    | none => exact h
    | some recognized => exact iterEvs_goodFrom seen evs recognized (loopBody_names r recognized hlb) h
  | cons step rest ih =>
    cases step with
    | fail =>
      rw [toolLoop]
      cases hlb : loopBody r with
      | none => exact h
      | some recognized => exact iterEvs_goodFrom seen evs recognized (loopBody_names r recognized hlb) h
    | reply r2 =>
      rw [toolLoop]
      cases hlb : loopBody r with
      | none => exact h
      | some recognized =>
        exact ih r2 _ _ _ (iterEvs_goodFrom seen evs recognized (loopBody_names r recognized hlb) h)

/-- The catch branch does not alter the event trace. -/
theorem sendMessage_events (script : List ChatStep) :
    (sendMessage script).events = (sendMessageTry script).2.2.2 := by
  rw [sendMessage]
  rcases htry : sendMessageTry script with ⟨res, u, n, ev⟩
  cases res <;> rfl

/-! ## Claim theorems -/
/-- C3 (amended): for every input text the parser follows the three-step
algorithm, except that in step (2) the code parses the whole UNTRIMMED
text (`JSON.parse(text)`), not the trimmed text, and an empty fenced
block falls through to step (2); on any parse failure, and when no
candidate is found, it yields the distinct unparseable outcome `none`
rather than raising past the caller. -/
theorem c3_parser_algorithm : ∀ text : List Char, extractJson text = extractJsonAmended text := by
  intro text
  simp only [extractJson, extractJsonTry, extractJsonAmended, fallbackTry]
  cases hf : findFencedJson text with
  | none =>
    by_cases hb : (jsTrim text).head? = some lbrace
    · simp only [hb, if_true]
      exact match_ofOptionE _
    · simp only [hb, if_false]
  | some cap =>
    by_cases hcap : cap.isEmpty
    · simp only [hcap, if_true]
      by_cases hb : (jsTrim text).head? = some lbrace
      · simp only [hb, if_true]
        exact match_ofOptionE _
      · simp only [hb, if_false]
    · simp only [hcap, if_false]
      exact match_ofOptionE _

/-- C3 counterexample: on the input `FORM FEED, brace, brace` the claimed
algorithm (parse the trimmed text) succeeds with the empty object, but
`extractJson` parses the untrimmed text, which `JSON.parse` rejects
because a form feed is not JSON whitespace, and yields `none`. -/
theorem c3_counterexample :
    extractJson ffInput = none ∧ extractJsonClaimed ffInput = some (Json.obj []) ∧
      extractJson ffInput ≠ extractJsonClaimed ffInput := by
  refine ⟨rfl, rfl, ?_⟩
  intro h
  rw [show extractJson ffInput = none from rfl,
    show extractJsonClaimed ffInput = some (Json.obj []) from rfl] at h
  exact Option.noConfusion h

/-- C1 (amended): `fetchCompanyData` attaches a sources list deduplicated
by uri in which insertion order of FIRST appearance is preserved but the
retained `GroundingSource` for each uri is the LAST one bearing it (JS
`Map` semantics: re-setting a key keeps its position, replaces its
value).  In particular `[(uri a), (uri b), (uri a)]` with identical
duplicates yields `[(uri a), (uri b)]` in that order, as the spec's
example states. -/
theorem c1_sources_dedup_amended :
    (∀ (text : List Char) (chunks : List (Option GroundingSource)) (j : Json),
        fetchCompanyData text chunks = Except.ok j →
        jsonGetField j sourcesKey =
          some (encodeSources
            ((firstDedup ((chunks.filterMap id).map GroundingSource.uri)).map
              (fun u => lastWith u (chunks.filterMap id))))) ∧
      jsMapDedup [⟨"", "a"⟩, ⟨"", "b"⟩, ⟨"", "a"⟩] = [⟨"", "a"⟩, ⟨"", "b"⟩] := by
  constructor
  · intro text chunks j h
    simp only [fetchCompanyData] at h
    cases hx : extractJson text with
    | none => simp only [hx] at h; exact Except.noConfusion h
    | some parsed =>
      simp only [hx] at h
      split_ifs at h with hfal
      have hj : j = Json.obj (assocSet (spreadFields parsed) sourcesKey
          (encodeSources (jsMapDedup (chunks.filterMap id)))) := (Except.ok.inj h).symm
      subst hj
      simp only [jsonGetField]
      rw [find?_assocSet_self, jsMapDedup_eq]
      rfl
  · rfl

/-- C1 counterexample: with citations `[(t1,a), (u,b), (t2,a)]` the code
attaches `[(t2,a), (u,b)]` — the LAST source bearing uri `a` — whereas
the claim (first occurrence wins) demands `[(t1,a), (u,b)]`. -/
theorem c1_counterexample :
    fetchCompanyData braceOnly demoChunks =
        Except.ok (Json.obj [(sourcesKey, encodeSources [⟨"t2", "a"⟩, ⟨"u", "b"⟩])]) ∧
      firstWinsDedup (demoChunks.filterMap id) = [⟨"t1", "a"⟩, ⟨"u", "b"⟩] ∧
      jsMapDedup (demoChunks.filterMap id) = [⟨"t2", "a"⟩, ⟨"u", "b"⟩] ∧
      ([⟨"t2", "a"⟩, ⟨"u", "b"⟩] : List GroundingSource) ≠ [⟨"t1", "a"⟩, ⟨"u", "b"⟩] := by
  refine ⟨rfl, ?_, rfl, by decide⟩
  simp +decide [firstWinsDedup, demoChunks]

/-- C1 witness: the amended theorem applied to the concrete fetch of an
empty object with the `demoChunks` citations. -/
theorem c1_amended_witness :
    jsonGetField (Json.obj [(sourcesKey, encodeSources [⟨"t2", "a"⟩, ⟨"u", "b"⟩])])
        sourcesKey =
      some (encodeSources
        ((firstDedup ((demoChunks.filterMap id).map GroundingSource.uri)).map
          (fun u => lastWith u (demoChunks.filterMap id)))) :=
  c1_sources_dedup_amended.1 braceOnly demoChunks _ rfl

/-- C2 (amended): when the underlying call fails at any point during the
turn, `sendMessage` does NOT fail: its catch branch swallows the error
and returns the fixed fallback string as an ordinary result (so the
caller's own catch in `ChatWindow` is unreachable via service
failures); callback side effects performed before the failure persist. -/
theorem c2_catch_returns_string_amended :
    ∀ (script : List ChatStep) (u : List UpdateArgs) (n : Nat) (e : List ChatEvent),
      sendMessageTry script = (Except.error (), u, n, e) →
      sendMessage script = ⟨chatErrorText, u, n, e⟩ := by
  intro script u n e h
  simp only [sendMessage, h]

/-- C2 counterexample: a dialogue whose very first call fails makes the
try block reject, yet `sendMessage` returns the normal string
`"I encountered an error processing your request."` instead of failing
with a `ChatError` as the claim states. -/
theorem c2_counterexample :
    sendMessageTry [ChatStep.fail] = (Except.error (), [], 1, []) ∧
      sendMessage [ChatStep.fail] = ⟨chatErrorText, [], 1, []⟩ := ⟨rfl, rfl⟩

/-- C2 witness: the amended theorem applied to the immediately-failing
script. -/
theorem c2_amended_witness :
    sendMessage [ChatStep.fail] = ⟨chatErrorText, [], 1, []⟩ :=
  c2_catch_returns_string_amended [ChatStep.fail] [] 1 [] rfl

/-- C4: a reply with zero tool-invocation requests ends the turn after
exactly one round-trip returning that reply's text; a single
`update_company_data` invocation followed, after its acknowledgment, by
a plain-text reply invokes the mutation callback exactly once with the
invocation's arguments, takes exactly two round-trips, and returns the
final text. -/
theorem c4_roundtrip_protocol :
    (∀ (r : ChatResponse) (rest : List ChatStep),
        (r.functionCalls = none ∨ r.functionCalls = some []) → r.text ≠ "" →
        sendMessage (ChatStep.reply r :: rest) = ⟨r.text, [], 1, []⟩) ∧
      (∀ (c : ToolCall) (t1 : String) (r2 : ChatResponse),
        c.name = updateToolName → r2.functionCalls = none → r2.text ≠ "" →
        sendMessage [ChatStep.reply ⟨t1, some [c]⟩, ChatStep.reply r2] =
          ⟨r2.text, [c.args], 2, [ChatEvent.update c, ChatEvent.ackSend [c.id]]⟩) := by
  constructor
  · intro r rest hfc htext
    have hlb : loopBody r = none := by
      rcases hfc with h | h <;> simp [loopBody, h]
    have htry : sendMessageTry (ChatStep.reply r :: rest) =
        (Except.ok (respText r), [], 1, []) := by
      simp only [sendMessageTry]
      cases rest with
      | nil => simp [toolLoop, hlb]
      | cons s rest' => cases s <;> simp [toolLoop, hlb]
    simp [sendMessage, htry, respText, htext]
  · intro c t1 r2 hc hr2 htext
    have hlb1 : loopBody ⟨t1, some [c]⟩ = some [c] := by
      simp [loopBody, hc]
    have hlb2 : loopBody r2 = none := by
      simp [loopBody, hr2]
    have htry : sendMessageTry [ChatStep.reply ⟨t1, some [c]⟩, ChatStep.reply r2] =
        (Except.ok (respText r2), [c.args], 2,
          [ChatEvent.update c, ChatEvent.ackSend [c.id]]) := by
      simp only [sendMessageTry, toolLoop, hlb1, hlb2, iterUps, iterEvs]
      simp
    simp [sendMessage, htry, respText, htext]

/-- C4 witness: both protocol shapes at concrete scripts. -/
theorem c4_witness :
    sendMessage [ChatStep.reply ⟨"hello", none⟩] = ⟨"hello", [], 1, []⟩ ∧
      sendMessage [ChatStep.reply ⟨"", some [⟨updateToolName, "id1", emptyUpdate⟩]⟩,
          ChatStep.reply ⟨"done", none⟩] =
        ⟨"done", [emptyUpdate], 2,
          [ChatEvent.update ⟨updateToolName, "id1", emptyUpdate⟩,
            ChatEvent.ackSend ["id1"]]⟩ :=
  ⟨c4_roundtrip_protocol.1 ⟨"hello", none⟩ [] (Or.inl rfl) (by decide),
    c4_roundtrip_protocol.2 ⟨updateToolName, "id1", emptyUpdate⟩ "" ⟨"done", none⟩ rfl rfl
      (by decide)⟩

/-- C5: at any iteration, a non-empty tool-invocation list containing no
invocation named `update_company_data` leaves the callback uninvoked and
terminates the loop with no acknowledgment sent (no new updates, no new
round-trips, no new events); in particular a first reply of that shape
ends the whole turn at one round-trip with an empty event trace. -/
theorem c5_unknown_tool_stops :
    (∀ (r : ChatResponse) (script : List ChatStep) (ups : List UpdateArgs) (trips : Nat)
        (evs : List ChatEvent) (calls : List ToolCall),
        r.functionCalls = some calls → calls ≠ [] →
        (∀ c ∈ calls, c.name ≠ updateToolName) →
        toolLoop r script ups trips evs = (Except.ok (respText r), ups, trips, evs)) ∧
      (∀ (r : ChatResponse) (rest : List ChatStep) (calls : List ToolCall),
        r.functionCalls = some calls → calls ≠ [] →
        (∀ c ∈ calls, c.name ≠ updateToolName) →
        sendMessage (ChatStep.reply r :: rest) = ⟨respText r, [], 1, []⟩) := by
  have hlbnone : ∀ (r : ChatResponse) (calls : List ToolCall),
      r.functionCalls = some calls → calls ≠ [] →
      (∀ c ∈ calls, c.name ≠ updateToolName) → loopBody r = none := by
    intro r calls hfc hne hnames
    simp only [loopBody, hfc]
    rw [if_neg (by simp [List.isEmpty_iff, hne])]
    rw [if_pos]
    rw [List.isEmpty_iff, List.filter_eq_nil_iff]
    intro c hc
    simp [hnames c hc]
  have hloop : ∀ (r : ChatResponse) (script : List ChatStep) (ups : List UpdateArgs)
      (trips : Nat) (evs : List ChatEvent) (calls : List ToolCall),
      r.functionCalls = some calls → calls ≠ [] →
      (∀ c ∈ calls, c.name ≠ updateToolName) →
      toolLoop r script ups trips evs = (Except.ok (respText r), ups, trips, evs) := by
    intro r script ups trips evs calls hfc hne hnames
    have hlb := hlbnone r calls hfc hne hnames
    cases script with
    | nil => simp [toolLoop, hlb]
    | cons s rest' => cases s <;> simp [toolLoop, hlb]
  refine ⟨hloop, ?_⟩
  intro r rest calls hfc hne hnames
  have htry : sendMessageTry (ChatStep.reply r :: rest) =
      (Except.ok (respText r), [], 1, []) := by
    simp only [sendMessageTry]
    exact hloop r rest [] 1 [] calls hfc hne hnames
  simp only [sendMessage, htry]

/-- C5 witness: the unknown-tool theorem at a concrete mid-loop state and
at a concrete one-reply script. -/
theorem c5_witness :
    toolLoop ⟨"mid", some [unknownToolCall]⟩ [] [] 3 [] =
        (Except.ok "mid", [], 3, []) ∧
      sendMessage [ChatStep.reply ⟨"hi", some [unknownToolCall]⟩] = ⟨"hi", [], 1, []⟩ := by
  constructor
  · have h := c5_unknown_tool_stops.1 ⟨"mid", some [unknownToolCall]⟩ [] [] 3 []
      [unknownToolCall] rfl (by simp)
      (by intro c hc; rw [List.mem_singleton] at hc; subst hc; decide)
    rw [h]
    rfl
  · exact c5_unknown_tool_stops.2 ⟨"hi", some [unknownToolCall]⟩ [] [unknownToolCall] rfl
      (by simp)
      (by intro c hc; rw [List.mem_singleton] at hc; subst hc; decide)

/-- C6: in every `sendMessage` turn, every acknowledgment batch sent
upstream only acknowledges `update_company_data` invocations whose
mutation callback ran strictly earlier in the event trace. -/
theorem c6_update_before_ack : ∀ script : List ChatStep,
    goodFrom [] (sendMessage script).events = true := by
  intro script
  rw [sendMessage_events]
  cases script with
  | nil => rfl
  | cons s rest =>
    cases s with
    | fail => rfl
    | reply r =>
      simp only [sendMessageTry]
      exact toolLoop_goodFrom rest r [] 1 [] [] rfl

/-- C7 counterexample: a timeline event with the unrecognized category
`"bogus"` flows unchanged into the data model both through
`fetchCompanyData`'s parsed result and through `update_company_data`
tool arguments applied by the mutation callback — nothing rejects it or
coerces it to `general`. -/
theorem c7_counterexample :
    fetchCompanyData c7text [] = Except.ok c7result ∧
      jsonGetField c7result timelineKey =
        some (Json.arr [Json.obj [("category".toList, Json.str "bogus".toList)]]) ∧
      validCategory "bogus" = false ∧
      (sendMessage c7script).updates = [timelineOnly [bogusEvent]] ∧
      handleDataUpdate (some demoCompany) (timelineOnly [bogusEvent]) = some c7updated ∧
      c7updated.timeline = [bogusEvent] ∧
      validCategory bogusEvent.category = false :=
  ⟨rfl, rfl, by decide, rfl, rfl, rfl, by decide⟩

/-- C7 (amended): no category validation exists: `fetchCompanyData`
passes the parsed `timeline` field through verbatim (only `sources` is
touched), and the mutation callback installs exactly the timeline the
tool arguments supply; the enumeration is only requested from the model,
never enforced at the boundary. -/
theorem c7_no_category_validation_amended :
    (∀ (fs : List (List Char × Json)) (text : List Char)
        (chunks : List (Option GroundingSource)) (j : Json),
        extractJson text = some (Json.obj fs) → fetchCompanyData text chunks = Except.ok j →
        jsonGetField j timelineKey = (fs.find? (fun p => p.1 = timelineKey)).map Prod.snd) ∧
      (∀ (p : CompanyData) (tl : List TimelineEvent),
        (applyUpdate p (timelineOnly tl)).timeline = tl) := by
  constructor
  · intro fs text chunks j hx h
    simp only [fetchCompanyData, hx, jsFalsy, Bool.false_eq_true, if_false] at h
    have hj : j = Json.obj (assocSet (spreadFields (Json.obj fs)) sourcesKey
        (encodeSources (jsMapDedup (chunks.filterMap id)))) := (Except.ok.inj h).symm
    subst hj
    simp only [jsonGetField, spreadFields]
    rw [find?_assocSet_ne _ _ _ _ (by decide)]
  · intro p tl
    rfl

/-- C7 witness: the passthrough theorem at the concrete bogus-category
fetch and update. -/
theorem c7_amended_witness :
    jsonGetField c7result timelineKey =
        (c7fields.find? (fun p => p.1 = timelineKey)).map Prod.snd ∧
      (applyUpdate demoCompany (timelineOnly [bogusEvent])).timeline = [bogusEvent] :=
  ⟨c7_no_category_validation_amended.1 c7fields c7text [] c7result rfl rfl,
    c7_no_category_validation_amended.2 demoCompany [bogusEvent]⟩

/-- C8: applying the mutation callback with an update carrying only a
`timeline` property fully replaces `timeline` and leaves `companyName`,
`summary`, `structure` and `sources` of the existing `CompanyData`
unchanged (shallow merge; absent properties are tolerated and keep the
previous values). -/
theorem c8_whole_field_replacement :
    ∀ (p : CompanyData) (tl : List TimelineEvent),
      handleDataUpdate (some p) (timelineOnly tl) =
        some ⟨p.companyName, p.summary, tl, p.structure', p.sources⟩ :=
  fun _ _ => rfl

/-- C9 counterexample: with the credential absent from the environment,
module initialization still constructs the client (storing no key) and
proceeds; the claimed fail-fast behaviour would instead be a
configuration error before any client exists. -/
theorem c9_counterexample :
    initAiClient none = GenClient.mk none ∧
      initFailFastClaimed none =
        Except.error "API credential missing from the process environment" :=
  ⟨rfl, rfl⟩

/-- C9 (amended): the repository performs no credential presence check:
`new GoogleGenAI(\x7b apiKey: process.env.API_KEY \x7d)` stores whatever
the environment held, absent or not, and no configuration error is
raised by the program's own code; a missing credential surfaces only
downstream at service-call time. -/
theorem c9_no_failfast_amended :
    ∀ env : Option String, initAiClient env = GenClient.mk env :=
  fun _ => rfl

/-- C10: invoking the mutation callback while no `CompanyData` is loaded
leaves the state `null` for every partial update: a chat-driven update
can never create `CompanyData` from nothing. -/
theorem c10_null_state_guard :
    ∀ u : UpdateArgs, handleDataUpdate none u = none :=
  fun _ => rfl

/-! ## Sanity checks of the embedding on ordinary inputs -/

/-- A fenced block surrounded by prose parses to the enclosed object. -/
theorem extract_fenced_demo :
    extractJson fencedDemo = some (Json.obj [("a".toList, Json.num ['1'])]) := rfl

/-- A bare object with no fence parses via the fallback branch. -/
theorem extract_plain_object_demo : extractJson braceOnly = some (Json.obj []) := rfl

/-- Text with neither candidate yields the unparseable outcome. -/
theorem extract_no_candidate_demo : extractJson ("no structured data".toList) = none := rfl

/-- An unterminated fenced block does not match the regex, and the raw
text fails the fallback test, so the outcome is unparseable. -/
theorem extract_unclosed_fence_demo :
    extractJson ("```json ".toList ++ [lbrace, rbrace]) = none := rfl
